import Mathlib

/-!
Verification of the document ingestion and retrieval pipeline of the
chatpdf repository, as a shallow embedding in Lean 4.

Strings are modelled as `List Char` (JavaScript strings are sequences of
UTF-16 code units; all texts handled below are sequences of Unicode scalar
values, with explicit UTF-16/UTF-8 encoders where code-unit or byte level
behaviour matters).  Numbers that the source only ever uses at integer
values are modelled as `Nat`/`Int`; similarity scores (floats in the
source) are modelled as `ℚ`.  External effects (S3 download, PDF parsing,
the embedding HTTP call, Pinecone upsert) are passed in as explicit
parameters, so the embedded functions capture exactly the control flow of
the repository's own code.
-/

namespace ChatPdf

/-! ## Vector store batching (src/unnamed/part_002, loadS3IntoPinecone steps 4-5)

The upsert loop is
`for (let i = 0; i < vectors.length; i += BATCH_SIZE) { const batch = vectors.slice(i, i + BATCH_SIZE); await namespace.upsert(batch); }`
with `BATCH_SIZE = 100`.  The batches issued are
`vectors.slice(0,100), vectors.slice(100,200), ...`; equivalently, the
first 100 elements followed by the batches of the remainder. -/

def BATCH_SIZE : Nat := 100

def upsertBatches : List α → List (List α)
  | [] => []
  | l@(_ :: _) => l.take BATCH_SIZE :: upsertBatches (l.drop BATCH_SIZE)
termination_by l => l.length
decreasing_by subst l; simp [BATCH_SIZE]; omega

/-! ## Namespace-key sanitization (src/src/lib/validation.ts, convertToAscii)

`inputString.replace(/[^\x00-\x7F]/g, "_")`: the regex (no `u` flag)
operates on UTF-16 code units, so every code unit above 0x7F is replaced
by one underscore (an astral code point, being two surrogate units,
becomes two underscores). -/

def utf16Units (s : List Char) : List Nat :=
  (s.map (fun c =>
    if c.toNat < 0x10000 then [c.toNat]
    else [0xD800 + (c.toNat - 0x10000) / 0x400, 0xDC00 + (c.toNat - 0x10000) % 0x400])).flatten

def convertToAscii (s : List Char) : List Char :=
  (utf16Units s).map (fun u => if u ≤ 0x7F then Char.ofNat u else '_')

/-! ## Chunker (src/src/lib/pinecone.ts, splitTextIntoChunks)

`splitTextIntoChunks` first normalizes the text
(`text.replace(/\s+/g, " ").trim()`), then walks it with
`currentPosition`, computing for each step
`endPosition = min(currentPosition + maxChunkSize, len)`, optionally
snapping the chunk end back to a sentence/word boundary found past 80% of
the window, emitting the trimmed substring when non-empty, and advancing
with `currentPosition = Math.max(chunkEnd - overlapSize, chunkEnd)`. -/

def maxChunkSize : Nat := 1000

def overlapSize : Nat := 100

/-- Character class of the JavaScript regex `\s` (also the set trimmed by
`String.prototype.trim`), by code point: space, tab, LF, VT, FF, CR, NBSP,
the Unicode space separators, LS, PS and the BOM. -/
def isJsWhitespace (c : Char) : Bool :=
  c.toNat = 0x20 || c.toNat = 0x09 || c.toNat = 0x0A || c.toNat = 0x0B ||
  c.toNat = 0x0C || c.toNat = 0x0D || c.toNat = 0xA0 || c.toNat = 0x1680 ||
  (0x2000 ≤ c.toNat && c.toNat ≤ 0x200A) || c.toNat = 0x2028 || c.toNat = 0x2029 ||
  c.toNat = 0x202F || c.toNat = 0x205F || c.toNat = 0x3000 || c.toNat = 0xFEFF

/-- `text.replace(/\s+/g, " ")`: each maximal run of whitespace becomes a
single space.  The boolean argument records whether the previous character
belonged to a whitespace run already replaced. -/
def collapseWsGo : Bool → List Char → List Char
  | _, [] => []
  | prevWs, c :: cs =>
    if isJsWhitespace c then
      if prevWs then collapseWsGo true cs else ' ' :: collapseWsGo true cs
    else c :: collapseWsGo false cs

def collapseWs (l : List Char) : List Char := collapseWsGo false l

/-- `String.prototype.trim`: strip whitespace from both ends. -/
def jsTrim (l : List Char) : List Char :=
  (l.dropWhile isJsWhitespace).rdropWhile isJsWhitespace

def lastIndexOfFromAux (c : Char) (fromIdx : Nat) : List Char → Nat → Int → Int
  | [], _, best => best
  | x :: xs, i, best =>
    if i ≤ fromIdx ∧ x = c then lastIndexOfFromAux c fromIdx xs (i + 1) (Int.ofNat i)
    else lastIndexOfFromAux c fromIdx xs (i + 1) best

/-- `str.lastIndexOf(c, fromIdx)`: the largest index `i ≤ fromIdx` with
`str[i] = c`, or `-1` when there is none (computed by a single scan). -/
def lastIndexOfFrom (t : List Char) (c : Char) (fromIdx : Nat) : Int :=
  lastIndexOfFromAux c fromIdx t 0 (-1)

structure DocumentChunk where
  content : List Char
  pageNumber : Nat
  chunkIndex : Nat
  totalChunks : Nat
deriving DecidableEq, Repr

/-- The chunk-end computation of one loop iteration of
`splitTextIntoChunks`.  The literal `800` is the exact value of the
source's floating-point product `maxChunkSize * 0.8`. -/
def chunkEndAt (t : List Char) (cp : Nat) : Nat :=
  let endPosition := min (cp + maxChunkSize) t.length
  if endPosition < t.length then
    let sentenceBreak := lastIndexOfFrom t '.' endPosition
    let wordBreak := lastIndexOfFrom t ' ' endPosition
    if sentenceBreak > (cp : Int) + 800 then (sentenceBreak + 1).toNat
    else if wordBreak > (cp : Int) + 800 then wordBreak.toNat
    else endPosition
  else endPosition

/-- `currentPosition = Math.max(chunkEnd - overlapSize, chunkEnd)` — the
source subtracts the overlap but immediately discards the subtraction by
taking the max with `chunkEnd` itself. -/
def nextPosition (chunkEnd : Nat) : Nat :=
  (max ((chunkEnd : Int) - overlapSize) (chunkEnd : Int)).toNat

/-- The main loop of `splitTextIntoChunks` over the cleaned text `t`.
`pageNumber` is the source's `Math.ceil((currentPosition / len) * 10)`
written as an exact integer ceiling. -/
def splitLoop (t : List Char) (cp : Nat) (idx : Nat) : List DocumentChunk :=
  if h : cp < t.length then
    let chunkEnd := chunkEndAt t cp
    let chunkContent := jsTrim ((t.drop cp).take (chunkEnd - cp))
    if 0 < chunkContent.length then
      { content := chunkContent,
        pageNumber := (10 * cp + (t.length - 1)) / t.length,
        chunkIndex := idx,
        totalChunks := 0 } :: splitLoop t (nextPosition chunkEnd) (idx + 1)
    else splitLoop t (nextPosition chunkEnd) idx
  else []
termination_by t.length - cp
decreasing_by
  all_goals
    have hnext : nextPosition (chunkEndAt t cp) = chunkEndAt t cp := by
      unfold nextPosition
      omega
    have hlt : cp < chunkEndAt t cp := by
      unfold chunkEndAt
      simp only []
      split
      · split
        · omega
        · split
          · omega
          · simp [maxChunkSize]; omega
      · simp [maxChunkSize]; omega
    rw [hnext]
    omega

def splitTextIntoChunks (text : List Char) : List DocumentChunk :=
  let cleanText := jsTrim (collapseWs text)
  let chunks := splitLoop cleanText 0 0
  chunks.map (fun c => { c with totalChunks := chunks.length })

/-! ## The other chunker (src/src/lib/pdf-processor.ts, splitText; the same
function also appears in src/unnamed/part_003, part_004 and part_005)

```
let start = 0;
while (start < text.length) {
  const end = Math.min(start + chunkSize, text.length);
  chunks.push(text.slice(start, end));
  start = end - overlap;
}
```

The loop is modelled with explicit fuel: `none` means the loop has not
exited after `fuel` iterations.  `start` is an `Int` because
`end - overlap` goes negative when the text is shorter than the overlap. -/

def jsSliceIndex (len : Nat) (i : Int) : Nat :=
  (if i < 0 then max ((len : Int) + i) 0 else min i len).toNat

/-- `Array.prototype.slice(s, e)` index semantics: negative indices count
from the end, then both are clamped to `[0, len]`. -/
def jsSlice (l : List Char) (s e : Int) : List Char :=
  (l.take (jsSliceIndex l.length e)).drop (jsSliceIndex l.length s)

def splitTextFuel (t : List Char) (chunkSize overlap : Nat) :
    Nat → Int → Option (List (List Char))
  | 0, _ => none
  | fuel + 1, start =>
    if start < (t.length : Int) then
      (splitTextFuel t chunkSize overlap fuel
          (min (start + chunkSize) (t.length : Int) - overlap)).map
        (fun cs => jsSlice t start (min (start + chunkSize) (t.length : Int)) :: cs)
    else some []

/-! ## Ingestion pipeline (src/src/lib/pinecone.ts, loadS3IntoPinecone)

External effects are passed as parameters: `downloadResult` is the outcome
of `downloadFromS3` (`none` models a falsy path), `extractResult` the
outcome of `extractTextFromPDF`, `embed` the per-chunk outcome of
`getEmbeddings`, and `hash` the `md5` library function.  The Pinecone
`namespace.upsert` call is treated as succeeding (its failure would simply
propagate like any other thrown error).  The returned `Bool` records
whether the temporary file was unlinked (step 6, which itself swallows
unlink errors) before the function returned. -/

structure VectorRecord where
  id : List Char
  values : List ℚ
  metadataText : List Char
  pageNumber : Nat
  chunkIndex : Nat
  totalChunks : Nat
  fileKey : List Char
deriving DecidableEq

structure PipelineResult where
  success : Bool
  chunksProcessed : Nat
  vectorsUploaded : Nat
  fileKey : List Char
deriving DecidableEq

/-- The embedding loop of steps 4: one `getEmbeddings` call per chunk in
order; the `catch` block of the loop rethrows, so the first failure aborts
the whole run and discards the vectors accumulated so far. -/
def embedChunks (embed : List Char → Except String (List ℚ))
    (hash : List Char → List Char) (fileKey : List Char) :
    List DocumentChunk → Except String (List VectorRecord)
  | [] => .ok []
  | c :: cs => do
    let values ← embed c.content
    let rest ← embedChunks embed hash fileKey cs
    .ok ({ id := fileKey ++ '-' :: hash c.content,
           values := values,
           metadataText := c.content.take 1000,
           pageNumber := c.pageNumber,
           chunkIndex := c.chunkIndex,
           totalChunks := c.totalChunks,
           fileKey := fileKey } :: rest)

def loadS3IntoPinecone (fileKey : List Char)
    (hash : List Char → List Char)
    (downloadResult : Option (List Char))
    (extractResult : Except String (List Char))
    (embed : List Char → Except String (List ℚ)) :
    Except String PipelineResult × Bool :=
  match downloadResult with
  | none => (.error "Failed to download PDF from S3", false)
  | some _ =>
    match extractResult with
    | .error e => (.error e, false)
    | .ok extractedText =>
      let chunks := splitTextIntoChunks extractedText
      match embedChunks embed hash fileKey chunks with
      | .error e => (.error e, false)
      | .ok vectors =>
        (.ok { success := true,
               chunksProcessed := chunks.length,
               vectorsUploaded := vectors.length,
               fileKey := fileKey }, true)

/-! ## PDF download-and-parse wrapper (src/src/lib/pdf-processor.ts,
downloadAndProcessPDF)

`parsePDF` stands for the `loadPDF` call; the result type is abstract
because the pages pass through untouched.  The `Bool` records whether the
temporary file was cleaned up (`fs.unlinkSync`, itself wrapped in a
try/catch that only warns) before the function returned: the source
unlinks only after `loadPDF` succeeds, and its outer catch rethrows
without unlinking. -/

def downloadAndProcessPDF (downloadResult : Option (List Char))
    (parsePDF : List Char → Except String α) :
    Except String α × Bool :=
  match downloadResult with
  | none => (.error "Could not download from s3", false)
  | some fileName =>
    match parsePDF fileName with
    | .error e => (.error e, false)
    | .ok docs => (.ok docs, true)

/-! ## Concrete texts used as counterexample inputs -/

/-- A 2000-character text (letters a–z cycled) containing no whitespace,
no `'.'` and no `' '`, so that boundary snapping and trimming are inert. -/
def t2000 : List Char := (List.range 2000).map (fun i => Char.ofNat (97 + i % 26))

def alphabet : List Char := (List.range 26).map (fun k => Char.ofNat (97 + k))

/-- A 1001-character text: 1000 copies of `'a'` followed by one `'b'`;
the chunker produces two chunks, with distinguishable contents. -/
def t1001 : List Char := List.replicate 1000 'a' ++ ['b']

/-- An embedding oracle that fails (as on an HTTP 429) exactly on the
second chunk of `t1001` and succeeds on every other input. -/
def failingEmbed : List Char → Except String (List ℚ) :=
  fun s => if s = ['b'] then .error "HTTP 429" else .ok [1]

/-! ## Context assembly (src/unnamed/part_002, getContext)

`getContext` embeds the query, fetches matches, filters them by score,
deduplicates their texts, joins with `"\n---\n"` and caps the result at
3000 characters; its whole body sits in a `try` whose `catch` logs and
returns `""`.  The two awaited calls are passed in as `Except` values. -/

structure MatchResult where
  score : Option ℚ
  text : List Char
deriving DecidableEq

def CONTEXT_SCORE_THRESHOLD : ℚ := 0.75

/-- `arr.indexOf(x)`: the index of the first occurrence, `-1` if absent. -/
def jsIndexOf (l : List (List Char)) (x : List Char) : Int :=
  match l.findIdx? (fun y => decide (y = x)) with
  | some i => i
  | none => -1

def contextSeparator : List Char := ['\n', '-', '-', '-', '\n']

/-- Steps 3-6 of `getContext`: `ms.filter(m => (m.score ?? 0) >= 0.75)`,
early `return ""` when none qualify, then
`.map(m => m.metadata.text).filter((text, idx, arr) => arr.indexOf(text) === idx).join("\n---\n").slice(0, 3000)`. -/
def assembleContext (ms : List MatchResult) : List Char :=
  let qualifying := ms.filter (fun m => decide (CONTEXT_SCORE_THRESHOLD ≤ m.score.getD 0))
  if qualifying.length = 0 then []
  else
    let texts := qualifying.map (fun m => m.text)
    let deduped := (texts.enum.filter (fun p => jsIndexOf texts p.2 = (p.1 : Int))).map
      (fun p => p.2)
    (List.intercalate contextSeparator deduped).take 3000

def getContext (embedResult : Except String (List ℚ))
    (queryResult : List ℚ → Except String (List MatchResult)) : List Char :=
  match embedResult with
  | .error _ => []
  | .ok emb =>
    match queryResult emb with
    | .error _ => []
    | .ok ms => assembleContext ms

/-! ## Byte-capped truncation (src/src/lib/pinecone.ts, truncateStringByBytes;
the identical function is in src/unnamed/part_003)

`new TextDecoder("utf-8").decode(new TextEncoder().encode(str).slice(0, bytes))`.
`utf8EncodeChar`/`utf8Encode` model `TextEncoder`; `utf8DecodeReplace`
models the WHATWG `TextDecoder` in its default non-fatal mode, which maps
every maximal invalid byte sequence to U+FFFD: the leading-byte ranges
0xC2–0xDF, 0xE0–0xEF and 0xF0–0xF4 carry the standard per-lead lower/upper
continuation boundaries (0xA0 for 0xE0, 0x9F for 0xED, 0x90 for 0xF0,
0x8F for 0xF4), and on an invalid or missing continuation byte the decoder
emits U+FFFD and reprocesses from the offending byte. -/

def utf8EncodeChar (c : Char) : List Nat :=
  let n := c.toNat
  if n < 0x80 then [n]
  else if n < 0x800 then [0xC0 + n / 0x40, 0x80 + n % 0x40]
  else if n < 0x10000 then [0xE0 + n / 0x1000, 0x80 + (n / 0x40) % 0x40, 0x80 + n % 0x40]
  else [0xF0 + n / 0x40000, 0x80 + (n / 0x1000) % 0x40, 0x80 + (n / 0x40) % 0x40,
        0x80 + n % 0x40]

def utf8Encode (s : List Char) : List Nat :=
  (s.map utf8EncodeChar).flatten

def replChar : Char := Char.ofNat 0xFFFD

def utf8DecodeReplace : List Nat → List Char
  | [] => []
  | b :: bs =>
    if b < 0x80 then
      Char.ofNat b :: utf8DecodeReplace bs
    else if 0xC2 ≤ b ∧ b ≤ 0xDF then
      match bs with
      | [] => [replChar]
      | b1 :: rest =>
        if 0x80 ≤ b1 ∧ b1 ≤ 0xBF then
          Char.ofNat ((b - 0xC0) * 0x40 + (b1 - 0x80)) :: utf8DecodeReplace rest
        else replChar :: utf8DecodeReplace (b1 :: rest)
    else if 0xE0 ≤ b ∧ b ≤ 0xEF then
      match bs with
      | [] => [replChar]
      | b1 :: rest =>
        if (if b = 0xE0 then 0xA0 else 0x80) ≤ b1 ∧ b1 ≤ (if b = 0xED then 0x9F else 0xBF) then
          match rest with
          | [] => [replChar]
          | b2 :: rest2 =>
            if 0x80 ≤ b2 ∧ b2 ≤ 0xBF then
              Char.ofNat ((b - 0xE0) * 0x1000 + (b1 - 0x80) * 0x40 + (b2 - 0x80)) ::
                utf8DecodeReplace rest2
            else replChar :: utf8DecodeReplace (b2 :: rest2)
        else replChar :: utf8DecodeReplace (b1 :: rest)
    else if 0xF0 ≤ b ∧ b ≤ 0xF4 then
      match bs with
      | [] => [replChar]
      | b1 :: rest =>
        if (if b = 0xF0 then 0x90 else 0x80) ≤ b1 ∧ b1 ≤ (if b = 0xF4 then 0x8F else 0xBF) then
          match rest with
          | [] => [replChar]
          | b2 :: rest2 =>
            if 0x80 ≤ b2 ∧ b2 ≤ 0xBF then
              match rest2 with
              | [] => [replChar]
              | b3 :: rest3 =>
                if 0x80 ≤ b3 ∧ b3 ≤ 0xBF then
                  Char.ofNat ((b - 0xF0) * 0x40000 + (b1 - 0x80) * 0x1000 +
                      (b2 - 0x80) * 0x40 + (b3 - 0x80)) :: utf8DecodeReplace rest3
                else replChar :: utf8DecodeReplace (b3 :: rest3)
            else replChar :: utf8DecodeReplace (b2 :: rest2)
        else replChar :: utf8DecodeReplace (b1 :: rest)
    else replChar :: utf8DecodeReplace bs

def truncateStringByBytes (str : List Char) (bytes : Nat) : List Char :=
  utf8DecodeReplace ((utf8Encode str).take bytes)

/-! ## Supporting lemmas -/

/-! ## Helper lemmas for the batching loop -/

theorem upsertBatches_join (l : List α) : (upsertBatches l).flatten = l := by
  induction l using upsertBatches.induct with
  | case1 => simp [upsertBatches]
  | case2 x xs ih =>
    rw [upsertBatches]
    simp only [List.flatten_cons, ih]
    exact List.take_append_drop _ _

theorem upsertBatches_sizes (l : List α) :
    ∀ b ∈ upsertBatches l, b.length ≤ BATCH_SIZE ∧ 0 < b.length := by
  induction l using upsertBatches.induct with
  | case1 => simp [upsertBatches]
  | case2 x xs ih =>
    rw [upsertBatches]
    intro b hb
    rcases List.mem_cons.mp hb with h | h
    · subst h
      constructor
      · simp
      · simp [BATCH_SIZE]
    · exact ih b h

theorem upsertBatches_cons (l : List α) (h : l ≠ []) :
    upsertBatches l = l.take BATCH_SIZE :: upsertBatches (l.drop BATCH_SIZE) := by
  obtain ⟨x, xs, rfl⟩ := List.exists_cons_of_ne_nil h
  rw [upsertBatches]

theorem nextPosition_eq (chunkEnd : Nat) : nextPosition chunkEnd = chunkEnd := by
  unfold nextPosition
  omega

theorem lastIndexOfFromAux_le (c : Char) (fromIdx : Nat) :
    ∀ (l : List Char) (i : Nat) (best : Int), best ≤ fromIdx →
      lastIndexOfFromAux c fromIdx l i best ≤ fromIdx := by
  intro l
  induction l with
  | nil => intro i best h; simpa [lastIndexOfFromAux] using h
  | cons x xs ih =>
    intro i best h
    rw [lastIndexOfFromAux]
    split
    · rename_i hcond
      exact ih (i + 1) _ (Int.ofNat_le.mpr hcond.1)
    · exact ih (i + 1) _ h

theorem lastIndexOfFrom_le (t : List Char) (c : Char) (fromIdx : Nat) :
    lastIndexOfFrom t c fromIdx ≤ fromIdx := by
  exact lastIndexOfFromAux_le c fromIdx t 0 (-1) (by omega)

theorem lt_chunkEndAt (t : List Char) (cp : Nat) (h : cp < t.length) :
    cp < chunkEndAt t cp := by
  unfold chunkEndAt
  simp only []
  split
  · split
    · omega
    · split
      · omega
      · simp [maxChunkSize]; omega
  · simp [maxChunkSize]; omega

theorem chunkEndAt_le (t : List Char) (cp : Nat) :
    chunkEndAt t cp ≤ t.length := by
  unfold chunkEndAt
  simp only []
  split
  · rename_i hlt
    split
    · have := lastIndexOfFrom_le t '.' (min (cp + maxChunkSize) t.length)
      omega
    · split
      · have := lastIndexOfFrom_le t ' ' (min (cp + maxChunkSize) t.length)
        omega
      · omega
  · omega

/-! ### Structural lemmas for running the chunker on concrete texts -/

/-- On whitespace-free text, the normalization pass is the identity. -/
theorem collapseWsGo_of_noWs (l : List Char) (h : ∀ c ∈ l, isJsWhitespace c = false) :
    collapseWsGo false l = l := by
  induction l with
  | nil => rfl
  | cons x xs ih =>
    rw [collapseWsGo, if_neg (by simp [h x (by simp)]), ih (fun c hc => h c (by simp [hc]))]

theorem jsTrim_of_noWs (l : List Char) (h : ∀ c ∈ l, isJsWhitespace c = false) :
    jsTrim l = l := by
  unfold jsTrim
  rw [List.dropWhile_eq_self_iff.mpr, List.rdropWhile_eq_self_iff.mpr]
  · intro hl
    simp [h _ (List.getLast_mem hl)]
  · intro hl
    simp [h _ (List.getElem_mem hl)]

theorem lastIndexOfFromAux_of_notMem (c : Char) (fromIdx : Nat) (l : List Char)
    (h : c ∉ l) : ∀ (i : Nat) (best : Int), lastIndexOfFromAux c fromIdx l i best = best := by
  induction l with
  | nil => intro i best; rfl
  | cons x xs ih =>
    intro i best
    rw [lastIndexOfFromAux, if_neg, ih (fun hc => h (by simp [hc]))]
    rintro ⟨-, rfl⟩
    exact h (by simp)

theorem lastIndexOfFrom_of_notMem (t : List Char) (c : Char) (fromIdx : Nat)
    (h : c ∉ t) : lastIndexOfFrom t c fromIdx = -1 :=
  lastIndexOfFromAux_of_notMem c fromIdx t h 0 (-1)

/-- On text containing neither `'.'` nor `' '`, boundary snapping never
fires and each chunk ends at `min (cp + maxChunkSize) t.length`. -/
theorem chunkEndAt_of_noBreak (t : List Char) (cp : Nat)
    (hdot : '.' ∉ t) (hsp : ' ' ∉ t) :
    chunkEndAt t cp = min (cp + maxChunkSize) t.length := by
  unfold chunkEndAt
  dsimp only
  split
  · rw [lastIndexOfFrom_of_notMem t '.' _ hdot, lastIndexOfFrom_of_notMem t ' ' _ hsp]
    rw [if_neg (by omega), if_neg (by omega)]
  · rfl

/-- One unfolding of the chunk loop on whitespace-free text: trimming is
inert, the emitted chunk is the raw window up to `chunkEndAt`, and the
loop resumes at the chunk end (the overlap subtraction being discarded by
the `Math.max`). -/
theorem splitLoop_step_of_noWs (t : List Char) (cp idx : Nat)
    (hcp : cp < t.length) (hws : ∀ c ∈ t, isJsWhitespace c = false) :
    splitLoop t cp idx =
      { content := (t.drop cp).take (chunkEndAt t cp - cp),
        pageNumber := (10 * cp + (t.length - 1)) / t.length,
        chunkIndex := idx,
        totalChunks := 0 } :: splitLoop t (chunkEndAt t cp) (idx + 1) := by
  have htrim : jsTrim ((t.drop cp).take (chunkEndAt t cp - cp)) =
      (t.drop cp).take (chunkEndAt t cp - cp) := by
    refine jsTrim_of_noWs _ (fun c hc => hws c ?_)
    exact List.drop_subset cp t (List.take_subset _ _ hc)
  rw [splitLoop, dif_pos hcp]
  dsimp only
  rw [htrim]
  rw [if_pos]
  · rw [nextPosition_eq]
  · simp only [List.length_take, List.length_drop]
    have := lt_chunkEndAt t cp hcp
    have := chunkEndAt_le t cp
    omega

/-- Specialization to break-free text, where the chunk end is the plain
window end. -/
theorem splitLoop_step_of_noBreak (t : List Char) (cp idx : Nat)
    (hcp : cp < t.length) (hdot : '.' ∉ t) (hsp : ' ' ∉ t)
    (hws : ∀ c ∈ t, isJsWhitespace c = false) :
    splitLoop t cp idx =
      { content := (t.drop cp).take (min (cp + maxChunkSize) t.length - cp),
        pageNumber := (10 * cp + (t.length - 1)) / t.length,
        chunkIndex := idx,
        totalChunks := 0 } :: splitLoop t (min (cp + maxChunkSize) t.length) (idx + 1) := by
  rw [splitLoop_step_of_noWs t cp idx hcp hws, chunkEndAt_of_noBreak t cp hdot hsp]

theorem splitLoop_stop (t : List Char) (cp idx : Nat) (h : ¬ cp < t.length) :
    splitLoop t cp idx = [] := by
  rw [splitLoop, dif_neg h]

/-- On whitespace-free text the emitted chunk contents are consecutive
disjoint slices covering the text from the start position on: no
character is repeated between chunks and none is dropped. -/
theorem splitLoop_content_flatten (t : List Char)
    (hws : ∀ c ∈ t, isJsWhitespace c = false) :
    ∀ (fuel cp idx : Nat), t.length - cp ≤ fuel →
      ((splitLoop t cp idx).map (fun c => c.content)).flatten = t.drop cp := by
  intro fuel
  induction fuel with
  | zero =>
    intro cp idx h
    rw [splitLoop_stop t cp idx (by omega), List.drop_eq_nil_of_le (by omega)]
    rfl
  | succ n ih =>
    intro cp idx h
    by_cases hcp : cp < t.length
    · rw [splitLoop_step_of_noWs t cp idx hcp hws]
      rw [List.map_cons, List.flatten_cons]
      have hce1 := lt_chunkEndAt t cp hcp
      have hce2 := chunkEndAt_le t cp
      rw [ih (chunkEndAt t cp) (idx + 1) (by omega)]
      have hdd : (t.drop cp).drop (chunkEndAt t cp - cp) = t.drop (chunkEndAt t cp) := by
        rw [List.drop_drop]
        congr 1
        omega
      rw [← hdd, List.take_append_drop]
    · rw [splitLoop_stop t cp idx hcp, List.drop_eq_nil_of_le (by omega)]
      rfl

theorem splitTextIntoChunks_nil : splitTextIntoChunks [] = [] := by
  rw [splitTextIntoChunks]
  have h : jsTrim (collapseWs []) = [] := rfl
  rw [h, splitLoop_stop _ 0 0 (by simp)]
  rfl

theorem splitTextFuel_none (t : List Char) (chunkSize overlap : Nat)
    (ho : 0 < overlap) :
    ∀ (fuel : Nat) (start : Int), start < (t.length : Int) →
      splitTextFuel t chunkSize overlap fuel start = none := by
  intro fuel
  induction fuel with
  | zero => intro start _; rfl
  | succ n ih =>
    intro start hstart
    rw [splitTextFuel, if_pos hstart]
    rw [ih (min (start + chunkSize) (t.length : Int) - overlap) (by omega)]
    rfl

theorem embedChunks_ok_length (embed : List Char → Except String (List ℚ))
    (hash : List Char → List Char) (fileKey : List Char) :
    ∀ (chunks : List DocumentChunk) (vectors : List VectorRecord),
      embedChunks embed hash fileKey chunks = .ok vectors →
      vectors.length = chunks.length := by
  intro chunks
  induction chunks with
  | nil =>
    intro vectors h
    simp only [embedChunks] at h
    cases h
    rfl
  | cons c cs ih =>
    intro vectors h
    simp only [embedChunks, bind, Except.bind] at h
    cases he : embed c.content with
    | error e => rw [he] at h; cases h
    | ok v =>
      rw [he] at h
      cases hr : embedChunks embed hash fileKey cs with
      | error e => rw [hr] at h; cases h
      | ok rest =>
        rw [hr] at h
        cases h
        simp [ih rest hr]

theorem t2000_length : t2000.length = 2000 := by simp [t2000]

theorem mem_t2000_mem_alphabet : ∀ c ∈ t2000, c ∈ alphabet := by
  intro c hc
  rw [t2000, List.mem_map] at hc
  obtain ⟨i, _, rfl⟩ := hc
  rw [alphabet, List.mem_map]
  exact ⟨i % 26, List.mem_range.mpr (Nat.mod_lt _ (by norm_num)), rfl⟩

theorem alphabet_ok : ∀ c ∈ alphabet, isJsWhitespace c = false ∧ c ≠ '.' ∧ c ≠ ' ' := by
  decide

theorem t2000_noWs : ∀ c ∈ t2000, isJsWhitespace c = false :=
  fun c hc => (alphabet_ok c (mem_t2000_mem_alphabet c hc)).1

theorem t2000_noDot : '.' ∉ t2000 :=
  fun h => (alphabet_ok _ (mem_t2000_mem_alphabet _ h)).2.1 rfl

theorem t2000_noSp : ' ' ∉ t2000 :=
  fun h => (alphabet_ok _ (mem_t2000_mem_alphabet _ h)).2.2 rfl

theorem t2000_chunks :
    splitTextIntoChunks t2000 =
      [{ content := t2000.take 1000, pageNumber := 0, chunkIndex := 0, totalChunks := 2 },
       { content := (t2000.drop 1000).take 1000, pageNumber := 5, chunkIndex := 1,
         totalChunks := 2 }] := by
  have hclean : jsTrim (collapseWs t2000) = t2000 := by
    rw [collapseWs, collapseWsGo_of_noWs _ t2000_noWs, jsTrim_of_noWs _ t2000_noWs]
  have hmin0 : min (0 + maxChunkSize) t2000.length = 1000 := by
    rw [t2000_length, maxChunkSize]; omega
  have hmin1 : min (1000 + maxChunkSize) t2000.length = 2000 := by
    rw [t2000_length, maxChunkSize]; omega
  have step0 := splitLoop_step_of_noBreak t2000 0 0
    (by rw [t2000_length]; norm_num) t2000_noDot t2000_noSp t2000_noWs
  have step1 := splitLoop_step_of_noBreak t2000 1000 1
    (by rw [t2000_length]; norm_num) t2000_noDot t2000_noSp t2000_noWs
  have step2 := splitLoop_stop t2000 2000 2 (by rw [t2000_length]; omega)
  rw [hmin0] at step0
  rw [hmin1] at step1
  rw [splitTextIntoChunks, hclean]
  rw [step0, step1, step2, t2000_length]
  norm_num

theorem t1001_length : t1001.length = 1001 := by
  rw [t1001, List.length_append, List.length_replicate]
  rfl

theorem mem_t1001 : ∀ c ∈ t1001, c = 'a' ∨ c = 'b' := by
  intro c hc
  rw [t1001, List.mem_append] at hc
  rcases hc with h | h
  · exact Or.inl (List.eq_of_mem_replicate h)
  · exact Or.inr (by simpa using h)

theorem t1001_noWs : ∀ c ∈ t1001, isJsWhitespace c = false := by
  intro c hc
  rcases mem_t1001 c hc with rfl | rfl <;> decide

theorem t1001_noDot : '.' ∉ t1001 := by
  intro h
  rcases mem_t1001 _ h with h' | h' <;> exact absurd h' (by decide)

theorem t1001_noSp : ' ' ∉ t1001 := by
  intro h
  rcases mem_t1001 _ h with h' | h' <;> exact absurd h' (by decide)

theorem t1001_take : t1001.take 1000 = List.replicate 1000 'a' := by
  have h : (List.replicate 1000 'a').length = 1000 := by rw [List.length_replicate]
  rw [t1001, List.take_left' h]

theorem t1001_drop : t1001.drop 1000 = ['b'] := by
  have h : (List.replicate 1000 'a').length = 1000 := by rw [List.length_replicate]
  rw [t1001, List.drop_left' h]

theorem t1001_chunks :
    splitTextIntoChunks t1001 =
      [{ content := List.replicate 1000 'a', pageNumber := 0, chunkIndex := 0,
         totalChunks := 2 },
       { content := ['b'], pageNumber := 10, chunkIndex := 1, totalChunks := 2 }] := by
  have hclean : jsTrim (collapseWs t1001) = t1001 := by
    rw [collapseWs, collapseWsGo_of_noWs _ t1001_noWs, jsTrim_of_noWs _ t1001_noWs]
  have hmin0 : min (0 + maxChunkSize) t1001.length = 1000 := by
    rw [t1001_length, maxChunkSize]; omega
  have hmin1 : min (1000 + maxChunkSize) t1001.length = 1001 := by
    rw [t1001_length, maxChunkSize]; omega
  have step0 := splitLoop_step_of_noBreak t1001 0 0
    (by rw [t1001_length]; norm_num) t1001_noDot t1001_noSp t1001_noWs
  have step1 := splitLoop_step_of_noBreak t1001 1000 1
    (by rw [t1001_length]; norm_num) t1001_noDot t1001_noSp t1001_noWs
  have step2 := splitLoop_stop t1001 1001 2 (by rw [t1001_length]; omega)
  rw [hmin0] at step0
  rw [hmin1] at step1
  rw [splitTextIntoChunks, hclean]
  rw [step0, step1, step2, t1001_length]
  norm_num [t1001_take, t1001_drop]

theorem assembleContext_of_all_below (ms : List MatchResult)
    (h : ∀ m ∈ ms, m.score.getD 0 < CONTEXT_SCORE_THRESHOLD) :
    assembleContext ms = [] := by
  unfold assembleContext
  have hq : ms.filter (fun m => decide (CONTEXT_SCORE_THRESHOLD ≤ m.score.getD 0)) = [] := by
    rw [List.filter_eq_nil_iff]
    intro m hm
    simpa using not_le.mpr (h m hm)
  rw [hq]
  rfl

theorem assembleContext_length_le (ms : List MatchResult) :
    (assembleContext ms).length ≤ 3000 := by
  unfold assembleContext
  dsimp only
  split
  · simp
  · simp

/-- Decoding a validly encoded character consumes exactly its bytes. -/
theorem utf8DecodeReplace_encodeChar (c : Char) (rest : List Nat) :
    utf8DecodeReplace (utf8EncodeChar c ++ rest) = c :: utf8DecodeReplace rest := by
  have hv : c.toNat < 0xD800 ∨ (0xDFFF < c.toNat ∧ c.toNat < 0x110000) := c.valid
  rw [utf8EncodeChar]
  by_cases h80 : c.toNat < 0x80
  · rw [if_pos h80]
    rw [List.cons_append, List.nil_append]
    rw [utf8DecodeReplace.eq_def]
    dsimp only
    rw [if_pos h80, Char.ofNat_toNat]
  · rw [if_neg h80]
    by_cases h800 : c.toNat < 0x800
    · rw [if_pos h800]
      rw [List.cons_append, List.cons_append, List.nil_append]
      rw [utf8DecodeReplace.eq_def]
      dsimp only
      rw [if_neg (by omega), if_pos (by constructor <;> omega)]
      rw [if_pos (by constructor <;> omega)]
      have hval : (0xC0 + c.toNat / 0x40 - 0xC0) * 0x40 + (0x80 + c.toNat % 0x40 - 0x80) =
          c.toNat := by omega
      rw [hval, Char.ofNat_toNat]
    · rw [if_neg h800]
      by_cases h10000 : c.toNat < 0x10000
      · rw [if_pos h10000]
        rw [List.cons_append, List.cons_append, List.cons_append, List.nil_append]
        rw [utf8DecodeReplace.eq_def]
        dsimp only
        rw [if_neg (by omega), if_neg (by omega), if_pos (by constructor <;> omega)]
        rw [if_pos ?hcont1]
        case hcont1 =>
          constructor
          · split
            · rename_i hE0
              have : c.toNat / 0x1000 = 0 := by omega
              have : c.toNat / 0x40 ≥ 0x20 ∧ c.toNat / 0x40 ≤ 0x3F := by omega
              omega
            · omega
          · split
            · rename_i hED
              have h13 : c.toNat / 0x1000 = 0xD := by omega
              rcases hv with h | ⟨h1, h2⟩
              · have : c.toNat / 0x40 ≥ 832 ∧ c.toNat / 0x40 ≤ 863 := by omega
                omega
              · omega
            · omega
        rw [if_pos (by constructor <;> omega)]
        have hval : (0xE0 + c.toNat / 0x1000 - 0xE0) * 0x1000 +
            (0x80 + c.toNat / 0x40 % 0x40 - 0x80) * 0x40 +
            (0x80 + c.toNat % 0x40 - 0x80) = c.toNat := by omega
        rw [hval, Char.ofNat_toNat]
      · rw [if_neg h10000]
        have h110000 : c.toNat < 0x110000 := by rcases hv with h | ⟨h1, h2⟩ <;> omega
        rw [List.cons_append, List.cons_append, List.cons_append, List.cons_append,
          List.nil_append]
        rw [utf8DecodeReplace.eq_def]
        dsimp only
        rw [if_neg (by omega), if_neg (by omega), if_neg (by omega),
          if_pos (by constructor <;> omega)]
        rw [if_pos ?hcont2]
        case hcont2 =>
          constructor
          · split
            · rename_i hF0
              have : c.toNat / 0x40000 = 0 := by omega
              have : c.toNat / 0x1000 ≥ 0x10 ∧ c.toNat / 0x1000 ≤ 0x3F := by omega
              omega
            · omega
          · split
            · rename_i hF4
              have h4 : c.toNat / 0x40000 = 4 := by omega
              have : c.toNat / 0x1000 ≥ 256 ∧ c.toNat / 0x1000 ≤ 271 := by omega
              omega
            · omega
        rw [if_pos (by constructor <;> omega), if_pos (by constructor <;> omega)]
        have hval : (0xF0 + c.toNat / 0x40000 - 0xF0) * 0x40000 +
            (0x80 + c.toNat / 0x1000 % 0x40 - 0x80) * 0x1000 +
            (0x80 + c.toNat / 0x40 % 0x40 - 0x80) * 0x40 +
            (0x80 + c.toNat % 0x40 - 0x80) = c.toNat := by omega
        rw [hval, Char.ofNat_toNat]

theorem utf8Encode_nil : utf8Encode [] = [] := rfl

theorem utf8Encode_cons (c : Char) (s : List Char) :
    utf8Encode (c :: s) = utf8EncodeChar c ++ utf8Encode s := by
  simp [utf8Encode]

theorem utf8Encode_append (a b : List Char) :
    utf8Encode (a ++ b) = utf8Encode a ++ utf8Encode b := by
  simp [utf8Encode]

theorem utf8DecodeReplace_encode_append (s : List Char) :
    ∀ rest, utf8DecodeReplace (utf8Encode s ++ rest) = s ++ utf8DecodeReplace rest := by
  induction s with
  | nil => intro rest; rw [utf8Encode_nil, List.nil_append, List.nil_append]
  | cons c cs ih =>
    intro rest
    rw [utf8Encode_cons, List.append_assoc, utf8DecodeReplace_encodeChar, ih, List.cons_append]

/-- Round trip: the WHATWG decoder inverts the encoder on valid input. -/
theorem utf8DecodeReplace_utf8Encode (s : List Char) :
    utf8DecodeReplace (utf8Encode s) = s := by
  have h := utf8DecodeReplace_encode_append s []
  rw [List.append_nil] at h
  rw [h]
  rw [show utf8DecodeReplace [] = [] from rfl, List.append_nil]

theorem t2000_getElem (i : Nat) (h : i < 2000) :
    t2000[i]? = some (Char.ofNat (97 + i % 26)) := by
  rw [t2000, List.getElem?_map, List.getElem?_range h]
  rfl

/-! ## The claims -/

/-- Claim C1: the spec asserts the sliding-window start strictly increases
each iteration because overlap < chunkSize, so chunking terminates.  For
`splitText` (pdf-processor.ts) this is false and the code is the slip: as
soon as `end` reaches `text.length`, `start = end - overlap` stays at
`text.length - overlap < text.length` forever, so the loop never exits on
ANY non-empty text: no amount of fuel makes the loop finish.  (The other
cited chunker, `splitTextIntoChunks`, does terminate: `splitLoop` is
defined by well-founded recursion on `t.length - cp`.) -/
theorem splitText_never_terminates (t : List Char) (chunkSize overlap : Nat)
    (ho : 0 < overlap) (ht : t ≠ []) :
    ∀ fuel : Nat, splitTextFuel t chunkSize overlap fuel 0 = none := by
  intro fuel
  refine splitTextFuel_none t chunkSize overlap ho fuel 0 ?_
  have : 0 < t.length := List.length_pos.mpr ht
  exact_mod_cast this

/-- Witness for C1 at the concrete input "ab" with the call-site defaults
chunkSize = 1000, overlap = 200. -/
theorem splitText_never_terminates_witness :
    0 < 200 ∧ (['a', 'b'] : List Char) ≠ [] ∧
      splitTextFuel ['a', 'b'] 1000 200 5 0 = none :=
  ⟨by decide, by decide,
    splitText_never_terminates ['a', 'b'] 1000 200 (by decide) (by decide) 5⟩

/-- Claim C2 counterexample: when extraction yields empty text (zero
chunks, hence zero vectors) and every external call succeeds,
`loadS3IntoPinecone` returns `success: true` with `vectorsUploaded = 0` —
there is no `NoVectorsProduced` failure in the code. -/
theorem loadS3IntoPinecone_zero_vectors_cex :
    loadS3IntoPinecone ['k'] (fun _ => []) (some ['f']) (.ok []) (fun _ => .ok []) =
      (.ok { success := true, chunksProcessed := 0, vectorsUploaded := 0,
             fileKey := ['k'] }, true) := by
  rw [loadS3IntoPinecone.eq_def]
  dsimp only
  rw [splitTextIntoChunks_nil]
  rfl

/-- Claim C2 amended: for every input whose extracted text chunks to
nothing, and whatever the external services do, the run returns a success
result reporting `chunksProcessed = 0` and `vectorsUploaded = 0` (and
deletes the temporary file); the code never checks for zero vectors. -/
theorem loadS3IntoPinecone_zero_chunks_success (fileKey : List Char)
    (hash : List Char → List Char) (f : List Char)
    (embed : List Char → Except String (List ℚ)) :
    loadS3IntoPinecone fileKey hash (some f) (.ok []) embed =
      (.ok { success := true, chunksProcessed := 0, vectorsUploaded := 0,
             fileKey := fileKey }, true) := by
  rw [loadS3IntoPinecone.eq_def]
  dsimp only
  rw [splitTextIntoChunks_nil]
  rfl

/-- Claim C3 counterexample: `t1001` chunks into two chunks; the embedding
oracle succeeds on the first and fails (HTTP 429) only on the second, yet
the whole run fails — the loop's catch rethrows instead of skipping the
chunk, so no success with `vectorsUploaded = chunksCreated - 1` occurs. -/
theorem loadS3IntoPinecone_one_chunk_failure_cex :
    (splitTextIntoChunks t1001).length = 2 ∧
    failingEmbed (List.replicate 1000 'a') = .ok [1] ∧
    loadS3IntoPinecone ['k'] (fun _ => []) (some ['f']) (.ok t1001) failingEmbed =
      (.error "HTTP 429", false) := by
  have hA : failingEmbed (List.replicate 1000 'a') = .ok [1] := by
    rw [failingEmbed]
    rw [if_neg]
    intro hEq
    have := congrArg List.length hEq
    rw [List.length_replicate] at this
    exact absurd this (by decide)
  have hB : failingEmbed ['b'] = .error "HTTP 429" := by
    rw [failingEmbed, if_pos rfl]
  refine ⟨by rw [t1001_chunks]; rfl, hA, ?_⟩
  rw [loadS3IntoPinecone.eq_def]
  dsimp only
  rw [t1001_chunks]
  rw [embedChunks, embedChunks]
  dsimp only
  rw [hA, hB]
  rfl

/-- Claim C3 amended: a per-chunk embedding failure aborts the whole run
(the catch rethrows); consequently, whenever the run returns a success
result, every chunk was embedded: `vectorsUploaded = chunksProcessed`
always, never `chunksCreated = 10` with `vectorsUploaded = 9`. -/
theorem loadS3IntoPinecone_success_no_skip (fileKey : List Char)
    (hash : List Char → List Char) (downloadResult : Option (List Char))
    (extractResult : Except String (List Char))
    (embed : List Char → Except String (List ℚ)) (r : PipelineResult) :
    (loadS3IntoPinecone fileKey hash downloadResult extractResult embed).1 = .ok r →
    r.vectorsUploaded = r.chunksProcessed := by
  rw [loadS3IntoPinecone.eq_def]
  cases downloadResult with
  | none => intro h; cases h
  | some f =>
    cases extractResult with
    | error e => intro h; cases h
    | ok text =>
      dsimp only
      cases hemb : embedChunks embed hash fileKey (splitTextIntoChunks text) with
      | error e => intro h; cases h
      | ok vectors =>
        intro h
        cases h
        exact embedChunks_ok_length embed hash fileKey _ _ hemb

/-- Witness for C3's amended theorem at a concrete successful run. -/
theorem loadS3IntoPinecone_success_no_skip_witness :
    ({ success := true, chunksProcessed := 0, vectorsUploaded := 0,
       fileKey := ['k'] } : PipelineResult).vectorsUploaded =
    ({ success := true, chunksProcessed := 0, vectorsUploaded := 0,
       fileKey := ['k'] } : PipelineResult).chunksProcessed :=
  loadS3IntoPinecone_success_no_skip ['k'] (fun _ => []) (some ['f']) (.ok [])
    (fun _ => .ok []) _
    (by rw [loadS3IntoPinecone.eq_def]; dsimp only; rw [splitTextIntoChunks_nil]; rfl)

/-- Claim C4 counterexample: on the 2000-character break-free text the
chunker emits exactly two chunks, `t2000.take 1000` and
`(t2000.drop 1000).take 1000`: the second chunk begins at position 1000
(first character `'m'` = `t2000[1000]`), not at position 800 as the
claimed advance of `chunkSize - overlap = 800` would give (that window
begins with `'u'` = `t2000[800]`), nor at 900 as the code's
`overlapSize = 100` would give (`'q'` = `t2000[900]`): consecutive chunks
share no characters. -/
theorem splitTextIntoChunks_no_overlap_cex :
    (splitTextIntoChunks t2000).map (fun c => c.content) =
      [t2000.take 1000, (t2000.drop 1000).take 1000] ∧
    (splitTextIntoChunks t2000).length = 2 ∧
    t2000.length = 2000 ∧
    ((t2000.drop 1000).take 1000)[0]? = some (Char.ofNat 109) ∧
    ((t2000.drop 800).take 1000)[0]? = some (Char.ofNat 117) ∧
    ((t2000.drop 900).take 1000)[0]? = some (Char.ofNat 113) ∧
    Char.ofNat 109 ≠ Char.ofNat 117 ∧ Char.ofNat 109 ≠ Char.ofNat 113 := by
  refine ⟨?_, ?_, t2000_length, ?_, ?_, ?_, by decide, by decide⟩
  · rw [t2000_chunks]
    rw [List.map_cons, List.map_cons, List.map_nil]
  · rw [t2000_chunks]
    rfl
  all_goals
    rw [List.getElem?_take_of_lt (by omega), List.getElem?_drop, t2000_getElem _ (by omega)]

/-- Claim C4 amended: `Math.max(chunkEnd - overlapSize, chunkEnd)` always
equals `chunkEnd`, so the window start advances to the previous chunk's
end: consecutive chunks are adjacent and disjoint (no overlap at all) —
on whitespace-free text the emitted chunk contents concatenate back to
exactly the input text. -/
theorem splitTextIntoChunks_disjoint_cover (t : List Char)
    (hws : ∀ c ∈ t, isJsWhitespace c = false) :
    (∀ chunkEnd : Nat, nextPosition chunkEnd = chunkEnd) ∧
    ((splitTextIntoChunks t).map (fun c => c.content)).flatten = t := by
  refine ⟨nextPosition_eq, ?_⟩
  have hclean : jsTrim (collapseWs t) = t := by
    rw [collapseWs, collapseWsGo_of_noWs _ hws, jsTrim_of_noWs _ hws]
  rw [splitTextIntoChunks, hclean]
  have hmap : ∀ chunks : List DocumentChunk,
      ((chunks.map (fun c => { c with totalChunks := chunks.length })).map
        (fun c => c.content)) = chunks.map (fun c => c.content) := by
    intro chunks
    rw [List.map_map]
    rfl
  rw [hmap]
  have := splitLoop_content_flatten t hws t.length 0 0 (by omega)
  rw [this]
  rfl

/-- Witness for C4's amended theorem on a concrete whitespace-free text. -/
theorem splitTextIntoChunks_disjoint_cover_witness :
    (∀ chunkEnd : Nat, nextPosition chunkEnd = chunkEnd) ∧
    ((splitTextIntoChunks ['x', 'y']).map (fun c => c.content)).flatten = ['x', 'y'] :=
  splitTextIntoChunks_disjoint_cover ['x', 'y'] (by decide)

/-- Claim C5: the upsert loop splits the records into consecutive batches
of at most 100 (each non-empty), issued in order, whose concatenation is
exactly the input; an input of 250 records gives batches of sizes
100, 100, 50 in that order. -/
theorem upsertBatches_spec (l : List α) :
    ((upsertBatches l).flatten = l ∧
      ∀ b ∈ upsertBatches l, b.length ≤ 100 ∧ 0 < b.length) ∧
    (l.length = 250 → (upsertBatches l).map List.length = [100, 100, 50]) := by
  constructor
  · refine ⟨upsertBatches_join l, ?_⟩
    have h := upsertBatches_sizes l
    simpa [BATCH_SIZE] using h
  · intro h250
    have h1 : l ≠ [] := by
      intro h
      rw [h, List.length_nil] at h250
      exact absurd h250 (by omega)
    have hd1 : (l.drop BATCH_SIZE).length = 150 := by
      rw [List.length_drop, h250, BATCH_SIZE]
    have h2 : l.drop BATCH_SIZE ≠ [] := by
      intro h
      rw [h, List.length_nil] at hd1
      exact absurd hd1 (by omega)
    have hd2 : ((l.drop BATCH_SIZE).drop BATCH_SIZE).length = 50 := by
      rw [List.length_drop, hd1, BATCH_SIZE]
    have h3 : (l.drop BATCH_SIZE).drop BATCH_SIZE ≠ [] := by
      intro h
      rw [h, List.length_nil] at hd2
      exact absurd hd2 (by omega)
    have hd3 : (((l.drop BATCH_SIZE).drop BATCH_SIZE).drop BATCH_SIZE).length = 0 := by
      rw [List.length_drop, hd2, BATCH_SIZE]
    have h4 : ((l.drop BATCH_SIZE).drop BATCH_SIZE).drop BATCH_SIZE = [] :=
      List.eq_nil_of_length_eq_zero hd3
    have h0 : upsertBatches ([] : List α) = [] := by
      rw [upsertBatches]
    rw [upsertBatches_cons l h1, upsertBatches_cons _ h2, upsertBatches_cons _ h3, h4, h0]
    simp only [List.map_cons, List.map_nil, List.length_take]
    rw [h250, hd1, hd2, BATCH_SIZE]
    norm_num

/-- Witness for C5 at a concrete list of 250 records. -/
theorem upsertBatches_spec_witness :
    (upsertBatches (List.range 250)).map List.length = [100, 100, 50] :=
  (upsertBatches_spec (List.range 250)).2 (by rw [List.length_range])

/-- Claim C6: with well-formed upstream results, `getContext` returns the
pure assembly of the matches; when every match scores below the 0.75
threshold it returns the empty sentinel, and in every case the returned
context is at most 3000 characters (it is a total function — the
no-matching-content path throws nothing). -/
theorem getContext_spec (emb : List ℚ) (ms : List MatchResult) :
    getContext (.ok emb) (fun _ => .ok ms) = assembleContext ms ∧
    ((∀ m ∈ ms, m.score.getD 0 < CONTEXT_SCORE_THRESHOLD) → assembleContext ms = []) ∧
    (assembleContext ms).length ≤ 3000 :=
  ⟨rfl, assembleContext_of_all_below ms, assembleContext_length_le ms⟩

/-- Witness for C6 at a concrete below-threshold match list. -/
theorem getContext_spec_witness :
    getContext (.ok []) (fun _ => .ok [{ score := some 0.5, text := ['x'] }]) = [] ∧
    (assembleContext [{ score := some 0.5, text := ['x'] }]).length ≤ 3000 := by
  have h := getContext_spec [] [{ score := some 0.5, text := ['x'] }]
  have hbelow : ∀ m ∈ [({ score := some 0.5, text := ['x'] } : MatchResult)],
      m.score.getD 0 < CONTEXT_SCORE_THRESHOLD := by
    intro m hm
    rw [List.mem_singleton] at hm
    subst hm
    rw [CONTEXT_SCORE_THRESHOLD]
    norm_num
  exact ⟨h.1.trans (h.2.1 hbelow), h.2.2⟩

/-- Claim C7 counterexample: an outright infrastructure failure of the
embedding call (or of the vector-store query) makes `getContext` return
the empty string — the very same value it returns for a well-formed query
whose matches all score below threshold.  The error is caught and
swallowed, not propagated. -/
theorem getContext_error_swallowed_cex :
    getContext (.error "ECONNREFUSED") (fun _ => .ok []) = [] ∧
    getContext (.ok [1]) (fun _ => .error "ECONNREFUSED") = [] ∧
    getContext (.ok [1]) (fun _ => .ok [{ score := some 0.5, text := ['x'] }]) = [] := by
  refine ⟨rfl, rfl, ?_⟩
  show assembleContext [{ score := some 0.5, text := ['x'] }] = []
  refine assembleContext_of_all_below _ ?_
  intro m hm
  rw [List.mem_singleton] at hm
  subst hm
  rw [CONTEXT_SCORE_THRESHOLD]
  norm_num

/-- Claim C7 amended: when the embedding call or the vector-store query
fails, `getContext` catches the error, logs it and returns the empty
string — indistinguishable from the "no relevant context" sentinel; no
error is ever propagated to the caller. -/
theorem getContext_swallows_errors (e : String)
    (q : List ℚ → Except String (List MatchResult)) (emb : List ℚ) (e2 : String) :
    getContext (.error e) q = [] ∧ getContext (.ok emb) (fun _ => .error e2) = [] :=
  ⟨rfl, rfl⟩

/-- Claim C8 counterexample: truncating `"é"` (UTF-8 bytes C3 A9) to a
1-byte budget slices inside the code point; the non-fatal decoder turns
the dangling lead byte into U+FFFD, so the result is a replacement
character that is not a character of the input, is neither of the two
prefixes of the input, and its own UTF-8 encoding is 3 bytes — over the
budget. -/
theorem truncateStringByBytes_splits_codepoint_cex :
    truncateStringByBytes ['é'] 1 = [replChar] ∧
    replChar ∉ (['é'] : List Char) ∧
    (utf8Encode [replChar]).length = 3 ∧
    truncateStringByBytes ['é'] 1 ≠ ['é'].take 1 ∧
    truncateStringByBytes ['é'] 1 ≠ [] := by
  refine ⟨by decide, by decide, by decide, by decide, by decide⟩

/-- Claim C8 amended: when the byte budget falls on a code-point boundary
of the UTF-8 encoding — in particular whenever it is the encoded length of
some prefix — `truncateStringByBytes` returns exactly that prefix (whose
encoding fits the budget, with no replacement characters); a budget that
splits a multi-byte code point instead yields U+FFFD replacement output
that need not be a prefix nor fit the budget. -/
theorem truncateStringByBytes_boundary (s : List Char) (k : Nat) :
    truncateStringByBytes s (utf8Encode (s.take k)).length = s.take k := by
  have h : utf8Encode s = utf8Encode (s.take k) ++ utf8Encode (s.drop k) := by
    rw [← utf8Encode_append, List.take_append_drop]
  rw [truncateStringByBytes, h, List.take_left, utf8DecodeReplace_utf8Encode]

/-- Claim C9 counterexample: when PDF parsing fails, `downloadAndProcessPDF`
rethrows without deleting the downloaded temporary file — a failing exit
path on which cleanup is skipped. -/
theorem downloadAndProcessPDF_leak_cex :
    downloadAndProcessPDF (some ['f'])
      (fun _ => (.error "Failed to parse PDF" : Except String Nat)) =
      (.error "Failed to parse PDF", false) := rfl

/-- Claim C9 amended: the temporary file is removed only on the success
path — cleanup runs if and only if the download returned a path and
parsing succeeded; on any failing exit path the function returns without
deleting the file. -/
theorem downloadAndProcessPDF_cleanup_iff (downloadResult : Option (List Char))
    (parsePDF : List Char → Except String α) :
    (downloadAndProcessPDF downloadResult parsePDF).2 = true ↔
      ∃ f docs, downloadResult = some f ∧ parsePDF f = .ok docs := by
  cases downloadResult with
  | none => simp [downloadAndProcessPDF]
  | some f =>
    cases hp : parsePDF f with
    | error e =>
      have hred : downloadAndProcessPDF (some f) parsePDF = (.error e, false) := by
        rw [downloadAndProcessPDF.eq_def]
        dsimp only
        rw [hp]
      rw [hred]
      constructor
      · intro h; cases h
      · rintro ⟨f', docs, hf, hdocs⟩
        cases hf
        rw [hp] at hdocs
        cases hdocs
    | ok docs =>
      have hred : downloadAndProcessPDF (some f) parsePDF = (.ok docs, true) := by
        rw [downloadAndProcessPDF.eq_def]
        dsimp only
        rw [hp]
      rw [hred]
      exact ⟨fun _ => ⟨f, docs, rfl, hp⟩, fun _ => rfl⟩

/-- Claim C10: `convertToAscii` maps every non-ASCII UTF-16 code unit to
an underscore, so it is not injective: the two distinct document keys
`"docé"` and `"docü"` (differing only in their non-ASCII character) yield
the same namespace key, and vectors of two different documents can land in
one shared namespace. -/
theorem convertToAscii_not_injective :
    (['d', 'o', 'c', 'é'] : List Char) ≠ ['d', 'o', 'c', 'ü'] ∧
    convertToAscii ['d', 'o', 'c', 'é'] = convertToAscii ['d', 'o', 'c', 'ü'] ∧
    ¬ Function.Injective convertToAscii ∧
    (∀ (s : List Char) (i u : Nat), (utf16Units s)[i]? = some u → 0x7F < u →
      (convertToAscii s)[i]? = some '_') := by
  refine ⟨by decide, by decide, ?_, ?_⟩
  · intro hinj
    exact absurd (hinj (by decide : convertToAscii ['d', 'o', 'c', 'é'] =
      convertToAscii ['d', 'o', 'c', 'ü'])) (by decide)
  · intro s i u hu hgt
    rw [convertToAscii, List.getElem?_map, hu]
    rw [Option.map_some']
    rw [if_neg (by omega)]

/-- Witness for C10's quantified part at the concrete key `"é"`. -/
theorem convertToAscii_not_injective_witness :
    (convertToAscii ['é'])[0]? = some '_' :=
  convertToAscii_not_injective.2.2.2 ['é'] 0 0xE9 (by decide) (by decide)

end ChatPdf
